import Mathlib

/-!
Verification of the runpod-video-encoder pipeline.

This file embeds the decision-relevant parts of the repository
(`runpod/handler.js`, `runpod/encode-worker.js`, and the earlier handler
variant kept as `unnamed/part_000`) as executable Lean definitions and
proves properties of them.  JavaScript strings are modelled as `List Char`,
JavaScript numbers as the inductive `JSNum` (a rational together with the
special values `Infinity`, `-Infinity` and `NaN`), and the filesystem as a
function from file names to optional byte contents.
-/

/-! ## JavaScript numeric model -/

/-- A JavaScript number: either a finite value (modelled as a rational,
which is exact on every value the embedded code manipulates), positive or
negative infinity, or NaN. -/
inductive JSNum where
  | fin (q : ℚ)
  | posInf
  | negInf
  | nan
deriving DecidableEq, Repr

/-- JavaScript truthiness of a number: `0` and `NaN` are falsy, every other
number (including the infinities) is truthy. -/
def jsTruthy : JSNum → Bool
  | .fin q => q ≠ 0
  | .posInf => true
  | .negInf => true
  | .nan => false

/-- JavaScript `a || b` on numbers: `a` if `a` is truthy, else `b`. -/
def jsOr (a b : JSNum) : JSNum := if jsTruthy a then a else b

/-- JavaScript division on numbers.  Division of a nonzero finite value by
zero yields a signed infinity and `0/0` yields `NaN`.  The embedded code
only ever divides values produced by `parseFloat` / `Number`, which in this
model are finite or `NaN`; every case with a non-finite operand therefore
propagates `NaN` exactly as JavaScript does for a `NaN` operand. -/
def jsDiv : JSNum → JSNum → JSNum
  | .fin a, .fin b =>
      if b = 0 then (if a = 0 then .nan else if 0 < a then .posInf else .negInf)
      else .fin (a / b)
  | _, _ => .nan

/-- `Math.round` in JavaScript: round half towards positive infinity. -/
def jsRound (q : ℚ) : ℤ := ⌊q + 1 / 2⌋

/-- Numeric value of a digit string (most significant digit first). -/
def natOfDigits (l : List Char) : ℕ :=
  l.foldl (fun n c => 10 * n + (c.toNat - 48)) 0

/-- JavaScript `parseFloat`, restricted to the shapes the frame-rate code
feeds it: it parses the maximal leading run of decimal digits and yields
`NaN` when there is none.  (The `r_frame_rate` components are nonnegative
integer numerals, so sign, fraction and exponent forms never occur.) -/
def jsParseFloat (l : List Char) : JSNum :=
  let ds := l.takeWhile Char.isDigit
  if ds.isEmpty then .nan else .fin (natOfDigits ds : ℚ)

/-- JavaScript `Number(...)` on a string, restricted to the shapes the
frame-rate code feeds it: the empty string converts to `0`, a digit string
to its value, and anything else to `NaN`. -/
def jsNumber (l : List Char) : JSNum :=
  if l.isEmpty then .fin 0
  else if l.all Char.isDigit then .fin (natOfDigits l : ℚ) else .nan

/-- JavaScript `String.prototype.split('/')`: the list of chunks between
occurrences of `'/'`; always nonempty. -/
def splitSlash : List Char → List (List Char)
  | [] => [[]]
  | c :: rest =>
      if c = '/' then [] :: splitSlash rest
      else
        match splitSlash rest with
        | [] => [[c]]
        | h :: t => (c :: h) :: t

/-- `parts[i] || dflt` for a split result: an absent element is `undefined`
and an empty chunk is the falsy empty string, so both select the default. -/
def partOr (parts : List (List Char)) (i : ℕ) (dflt : List Char) : List Char :=
  match parts.get? i with
  | some p => if p.isEmpty then dflt else p
  | none => dflt

/-! ## Media probers (frame-rate resolution)

Three variants exist in the repository:
* `getVideoInfo` in `runpod/handler.js` (lines 429–433): strict
  numerator/denominator parsing with a `den ? num/den : 0` guard and a
  final `|| 30` fallback;
* `getVideoProperties` in `runpod/encode-worker.js` (lines 140–144):
  `Number`-based parsing with `fps = den ? num / den : num`;
* `getVideoInfo` in `unnamed/part_000` (line 365): dynamic evaluation of
  the rational string, `eval(videoStream?.r_frame_rate) || 30`.
-/

/-- `fps` as computed by `getVideoInfo` in `runpod/handler.js`:
the stream field `r_frame_rate` (or `'0/1'` when absent or empty) is split
on `'/'`, both parts are parsed with `parseFloat` (with `'0'` and `'1'`
defaults for falsy parts), a zero or NaN denominator short-circuits to `0`,
and a falsy result falls back to `30`. -/
def getVideoInfo_fps (rfr : Option (List Char)) : JSNum :=
  let s := match rfr with
    | some s => if s.isEmpty then "0/1".toList else s
    | none => "0/1".toList
  let fr := splitSlash s
  let num := jsParseFloat (partOr fr 0 ['0'])
  let den := jsParseFloat (partOr fr 1 ['1'])
  jsOr (if jsTruthy den then jsDiv num den else .fin 0) (.fin 30)

/-- `fps` as computed by `getVideoProperties` in `runpod/encode-worker.js`:
`fps` starts at `30`; when `avg_frame_rate` is truthy it is split on `'/'`,
mapped through `Number`, destructured into `num` and `den` (an absent
second element is `undefined`, hence falsy), and `fps = den ? num / den :
num`. -/
def getVideoProperties_fps (afr : Option (List Char)) : JSNum :=
  match afr with
  | none => .fin 30
  | some s =>
      if s.isEmpty then .fin 30
      else
        let parts := (splitSlash s).map jsNumber
        let num := parts.headD .nan
        match parts.get? 1 with
        | some den => if jsTruthy den then jsDiv num den else num
        | none => num

/-- JavaScript `eval` of an `r_frame_rate` string, restricted to the shapes
that field takes: a single numeric literal evaluates to its value, and
`"a/b"` evaluates to the JavaScript division of the two literals (so a zero
denominator under a nonzero numerator yields `Infinity`). -/
def evalRational (s : List Char) : JSNum :=
  match splitSlash s with
  | [a] => jsNumber a
  | [a, b] => jsDiv (jsNumber a) (jsNumber b)
  | _ => .nan

/-- `fps` as computed by `getVideoInfo` in `unnamed/part_000`:
`eval(videoStream?.r_frame_rate) || 30` (an absent field gives `undefined`,
which is falsy, selecting the fallback). -/
def part000_getVideoInfo_fps (rfr : Option (List Char)) : JSNum :=
  match rfr with
  | none => .fin 30
  | some s => jsOr (evalRational s) (.fin 30)

/-! ## Encode plans (GOP / keyframe parameters)

`encodeWithNVENC` in `runpod/handler.js` (lines 440–538) resolves the
quality tier, computes `gopSize = Math.round(30 * segmentTime)` (line 452
— the constant `30`, not the probed frame rate), and in both the NVENC
branch (lines 483–485) and the software branch (lines 519–522) emits
`-g gopSize`, `-keyint_min gopSize` and
`-force_key_frames expr:gte(t,n_forced*segmentTime)`, plus
`-hls_time segmentTime`.

`encodeWithNVENC` in `runpod/encode-worker.js` (lines 157–219) instead
computes `gopSize = Math.round(fps * segmentTime)` (line 178) from the
probed frame rate and emits the same three keyframe options
(lines 200–202).
-/

/-- A supported quality tier. -/
inductive Quality where
  | low
  | medium
  | high
deriving DecidableEq, Repr

/-- The `qualitySettings` table of `runpod/handler.js` (lines 445–449). -/
def qualitySettings : Quality → ℕ × List Char
  | .high => (20, "p4".toList)
  | .medium => (25, "p4".toList)
  | .low => (30, "p6".toList)

/-- The keyframe/segmentation-relevant slice of an encoder invocation. -/
structure EncodeGopPlan where
  preset : List Char
  g : ℤ
  keyintMin : ℤ
  /-- the `n_forced` multiplier inside the `-force_key_frames` expression -/
  forceKeyPeriod : ℚ
  hlsTime : ℚ
deriving DecidableEq, Repr

/-- The plan built by `encodeWithNVENC` in `runpod/handler.js`: GOP size is
`Math.round(30 * segmentTime)` on both the NVENC and the software path;
the preset comes from the quality table on the NVENC path and is the fixed
`fast` on the software path. -/
def encodeWithNVENC_plan (quality : Quality) (segmentTime : ℚ) (useNVENC : Bool) :
    EncodeGopPlan :=
  let settings := qualitySettings quality
  let gopSize := jsRound (30 * segmentTime)
  if useNVENC then
    { preset := settings.2, g := gopSize, keyintMin := gopSize,
      forceKeyPeriod := segmentTime, hlsTime := segmentTime }
  else
    { preset := "fast".toList, g := gopSize, keyintMin := gopSize,
      forceKeyPeriod := segmentTime, hlsTime := segmentTime }

/-- The plan built by `encodeWithNVENC` in `runpod/encode-worker.js`: GOP
size is `Math.round(fps * segmentTime)` with `fps` taken from the probed
video properties; the preset is the fixed `p4`. -/
def worker_encodeWithNVENC_plan (fps segmentTime : ℚ) : EncodeGopPlan :=
  let gopSize := jsRound (fps * segmentTime)
  { preset := "p4".toList, g := gopSize, keyintMin := gopSize,
    forceKeyPeriod := segmentTime, hlsTime := segmentTime }

/-! ## C1 and C3 theorems -/

/-- C1 (counterexample): the claim says the encode step computes
GOP size = round(fps × segmentDuration) with fps taken from the media
prober.  For a probed frame rate of 24 (`r_frame_rate = "24/1"`, as
resolved by `getVideoInfo` in `runpod/handler.js`) and segment duration 2,
`encodeWithNVENC` in `runpod/handler.js` sets `-g` to
`Math.round(30 * 2) = 60`, not `round(24 × 2) = 48`. -/
theorem c1_counterexample :
    getVideoInfo_fps (some ("24/1".toList)) = JSNum.fin 24 ∧
    (encodeWithNVENC_plan Quality.medium 2 true).g = 60 ∧
    jsRound (24 * 2) = 48 ∧
    (encodeWithNVENC_plan Quality.medium 2 true).g ≠ jsRound (24 * 2) := by
  have hfps : getVideoInfo_fps (some ("24/1".toList)) = JSNum.fin 24 := by
    show jsOr
        (if jsTruthy (jsParseFloat ['1']) then
          jsDiv (jsParseFloat ['2', '4']) (jsParseFloat ['1']) else .fin 0)
        (.fin 30) = JSNum.fin 24
    rw [show jsParseFloat ['2', '4'] = .fin ((24 : ℕ) : ℚ) from rfl,
      show jsParseFloat ['1'] = .fin ((1 : ℕ) : ℚ) from rfl]
    norm_num [jsTruthy, jsDiv, jsOr]
  have hg : (encodeWithNVENC_plan Quality.medium 2 true).g = 60 := by
    show jsRound (30 * 2) = 60
    norm_num [jsRound]
  have hr : jsRound (24 * 2) = 48 := by norm_num [jsRound]
  exact ⟨hfps, hg, hr, by rw [hg, hr]; decide⟩

/-- C1 (amended): in `runpod/encode-worker.js` the GOP size equals
`round(fps × segmentDuration)` with `fps` from the prober, while in
`runpod/handler.js` it equals `round(30 × segmentDuration)` irrespective of
the probed frame rate and of the quality tier and codec path; in both
variants `-g` and `-keyint_min` are set to that GOP size and the
forced-keyframe expression period and `-hls_time` equal the segment
duration exactly. -/
theorem c1_amended (fps segmentTime : ℚ) (quality : Quality) (useNVENC : Bool) :
    ((worker_encodeWithNVENC_plan fps segmentTime).g = jsRound (fps * segmentTime) ∧
      (worker_encodeWithNVENC_plan fps segmentTime).keyintMin = jsRound (fps * segmentTime) ∧
      (worker_encodeWithNVENC_plan fps segmentTime).forceKeyPeriod = segmentTime ∧
      (worker_encodeWithNVENC_plan fps segmentTime).hlsTime = segmentTime) ∧
    ((encodeWithNVENC_plan quality segmentTime useNVENC).g = jsRound (30 * segmentTime) ∧
      (encodeWithNVENC_plan quality segmentTime useNVENC).keyintMin = jsRound (30 * segmentTime) ∧
      (encodeWithNVENC_plan quality segmentTime useNVENC).forceKeyPeriod = segmentTime ∧
      (encodeWithNVENC_plan quality segmentTime useNVENC).hlsTime = segmentTime) := by
  cases useNVENC <;>
    exact ⟨⟨rfl, rfl, rfl, rfl⟩, ⟨rfl, rfl, rfl, rfl⟩⟩

/-- C3: for a frame-rate string with a zero denominator, frame-rate
resolution in `runpod/handler.js` and `runpod/encode-worker.js` yields a
defined finite fallback, but the `eval`-based variant in
`unnamed/part_000` yields `Infinity` for `"30/0"` (eval computes `30/0 =
Infinity`, which is truthy, so the `|| 30` fallback is bypassed),
contradicting the claim on that prober. -/
theorem c3_part000_infinity :
    part000_getVideoInfo_fps (some ("30/0".toList)) = JSNum.posInf ∧
    getVideoInfo_fps (some ("30/0".toList)) = JSNum.fin 30 ∧
    getVideoProperties_fps (some ("30/0".toList)) = JSNum.fin 30 := by
  refine ⟨by decide, by decide, by decide⟩

/-! ## Encode completion (C2)

The `close` handler of the encoder process in `runpod/handler.js`
(lines 583–611; the same shape appears in `runpod/encode-worker.js`
lines 237–246): on exit code `0` it lists the segment directory, filters
for `.ts` files and resolves successfully with their count — without any
check that the count is nonzero; on a nonzero exit code it rejects with an
`FFmpeg process exited with code ...` error.
-/

/-- `f.endsWith('.ts')`. -/
def endsWithTs (name : List Char) : Bool := ".ts".toList.isSuffixOf name

/-- The failure reported by the encode step. -/
inductive EncodeError where
  | ffmpegExit (code : ℤ)
deriving DecidableEq, Repr

/-- The resolution value of the encode step (segment count as reported). -/
structure EncodeSuccess where
  segmentCount : ℕ
deriving DecidableEq, Repr

/-- The `close` handler of `encodeWithNVENC` in `runpod/handler.js`:
`listing` is the content of the segment directory at close time. -/
def encodeWithNVENC_onClose (code : ℤ) (listing : List (List Char)) :
    Except EncodeError EncodeSuccess :=
  if code = 0 then
    .ok { segmentCount := (listing.filter endsWithTs).length }
  else
    .error (.ffmpegExit code)

/-- C2 (counterexample): an encoder exit code of `0` with an empty segment
directory resolves as a success with `segmentCount = 0` — it is not
reported as an `EncodeError`, contradicting the claim. -/
theorem c2_counterexample :
    encodeWithNVENC_onClose 0 [] = Except.ok { segmentCount := 0 } := rfl

/-- C2 (amended): when the encoder exits with code `0`, the encode step
always resolves successfully with the number of `.ts` files found — in
particular, a directory holding no `.ts` file yields a success with
`segmentCount = 0`, not an `EncodeError`; only a nonzero exit code is
reported as an encode failure. -/
theorem c2_amended (code : ℤ) (listing : List (List Char))
    (hts : ∀ f ∈ listing, endsWithTs f = false) :
    (code = 0 → encodeWithNVENC_onClose code listing = .ok { segmentCount := 0 }) ∧
    (code ≠ 0 → encodeWithNVENC_onClose code listing = .error (.ffmpegExit code)) := by
  constructor
  · intro h
    subst h
    have hfil : listing.filter endsWithTs = [] := by
      simp only [List.filter_eq_nil_iff]
      intro f hf
      simp [hts f hf]
    simp [encodeWithNVENC_onClose, hfil]
  · intro h
    simp [encodeWithNVENC_onClose, h]

/-- Witness for `c2_amended` at exit code `0` and a directory listing
containing only a non-segment file. -/
theorem c2_witness :
    encodeWithNVENC_onClose 0 ["master.m3u8".toList] = .ok { segmentCount := 0 } :=
  (c2_amended 0 ["master.m3u8".toList] (by decide)).1 rfl

/-! ## Output publication (C7)

`uploadSegmentsToOSS` in `runpod/handler.js` (lines 819–899) uploads the
segments one by one in a sequential `for` loop, awaiting each `client.put`;
a rejected upload throws, which aborts the loop, is rethrown as
`Failed to upload segments to OSS: ...`, and propagates out of
`handleVideoEncoding` (lines 252–269) before `createAndUploadM3U8ToOSS` is
ever called — so a single failed segment upload leaves all later segments
un-uploaded and the playlist neither reconstructed nor uploaded.
-/

/-- Outcome of the publication stage: which segments were successfully
uploaded, whether the playlist reconstruction/upload step was reached, and
whether the stage aborted with a publish error. -/
structure PublishOutcome (α : Type) where
  uploadedSegments : List α
  playlistUploaded : Bool
  publishError : Bool
deriving DecidableEq, Repr

/-- The publication stage of `handleVideoEncoding`: the sequential segment
upload loop of `uploadSegmentsToOSS`, followed (only if every upload
succeeded) by the playlist upload of `createAndUploadM3U8ToOSS`.
`put f = true` means the upload of `f` resolves, `false` that it throws. -/
def handleVideoEncoding_publish {α : Type} (put : α → Bool) :
    List α → PublishOutcome α
  | [] => { uploadedSegments := [], playlistUploaded := true, publishError := false }
  | f :: rest =>
      if put f then
        let r := handleVideoEncoding_publish put rest
        { r with uploadedSegments := f :: r.uploadedSegments }
      else
        { uploadedSegments := [], playlistUploaded := false, publishError := true }

/-- C7: if every upload before `f` succeeds and the upload of `f` fails,
the publish run reports a publish error, uploads exactly the segments
before `f` (none after it), and never uploads the playlist. -/
theorem c7_upload_abort {α : Type} (put : α → Bool) (pre post : List α) (f : α)
    (hpre : ∀ x ∈ pre, put x = true) (hf : put f = false) :
    handleVideoEncoding_publish put (pre ++ f :: post) =
      { uploadedSegments := pre, playlistUploaded := false, publishError := true } := by
  induction pre with
  | nil =>
      simp [handleVideoEncoding_publish, hf]
  | cons a t ih =>
      have ha : put a = true := hpre a (by simp)
      have ih2 := ih (fun x hx => hpre x (by simp [hx]))
      simp [handleVideoEncoding_publish, ha, ih2]

/-- Witness for `c7_upload_abort`: two good segments, then a failing one,
then one more that must not be uploaded. -/
theorem c7_witness :
    handleVideoEncoding_publish (fun n => decide (n < 2)) ([0, 1] ++ 5 :: [3]) =
      { uploadedSegments := [0, 1], playlistUploaded := false, publishError := true } :=
  c7_upload_abort (fun n => decide (n < 2)) [0, 1] [3] 5 (by decide) (by decide)

/-! ## Workspace teardown (C8)

`handleVideoEncoding` in `runpod/handler.js` creates `/tmp/encoding` (and
subdirectories) with `mkdirSync`, then runs download → probe → encode →
(optionally) upload inside a `try` whose `finally` (lines 321–331) removes
the whole tree with `fs.rmSync(workDir, { recursive: true, force: true })`
whenever it still exists — on success and on every thrown error alike.
-/

/-- The error taxonomy of a job, tagged by the stage that threw. -/
inductive JobError where
  | download (msg : List Char)
  | probe (msg : List Char)
  | encode (msg : List Char)
  | publish (msg : List Char)
deriving DecidableEq, Repr

/-- The outcome of each pipeline stage of one job, as resolved by the
awaited helpers (`.error m` models the helper rejecting with message `m`). -/
structure StageOutcomes where
  download : Except (List Char) Unit
  probe : Except (List Char) Unit
  encode : Except (List Char) Unit
  publish : Except (List Char) Unit

/-- The body of the `try` block of `handleVideoEncoding`: stages run in
order, and the first rejection aborts the rest and propagates. -/
def handleVideoEncoding_body (uploadRequested : Bool) (o : StageOutcomes) :
    Except JobError Unit :=
  match o.download with
  | .error m => .error (.download m)
  | .ok _ =>
    match o.probe with
    | .error m => .error (.probe m)
    | .ok _ =>
      match o.encode with
      | .error m => .error (.encode m)
      | .ok _ =>
        if uploadRequested then
          match o.publish with
          | .error m => .error (.publish m)
          | .ok _ => .ok ()
        else .ok ()

/-- The `finally` block (lines 321–331): if the workspace directory still
exists, remove it recursively. -/
def handleVideoEncoding_cleanup (workDirExists : Bool) : Bool :=
  if workDirExists then false else workDirExists

/-- `handleVideoEncoding` after workspace allocation: the workspace exists
(`mkdirSync` ran), the try body produces the job result, and the `finally`
block runs on every exit path before the call returns.  The second
component is whether the workspace directory exists after the return. -/
def handleVideoEncoding_run (uploadRequested : Bool) (o : StageOutcomes) :
    Except JobError Unit × Bool :=
  (handleVideoEncoding_body uploadRequested o, handleVideoEncoding_cleanup true)

/-- C8: for every combination of stage outcomes — success or a failure of
download (including an invalid drive token rejection), probe, encode or
publish — the workspace directory does not exist once the call returns;
moreover a download rejection surfaces as the job's download error, and a
successful result implies every earlier stage succeeded. -/
theorem c8_workspace_teardown (uploadRequested : Bool) (o : StageOutcomes) :
    (handleVideoEncoding_run uploadRequested o).2 = false ∧
    (∀ m, o.download = .error m →
      (handleVideoEncoding_run uploadRequested o).1 = .error (.download m)) ∧
    ((handleVideoEncoding_run uploadRequested o).1 = .ok () →
      o.download = .ok () ∧ o.probe = .ok () ∧ o.encode = .ok ()) := by
  refine ⟨rfl, ?_, ?_⟩
  · intro m hm
    simp [handleVideoEncoding_run, handleVideoEncoding_body, hm]
  · intro hok
    simp only [handleVideoEncoding_run, handleVideoEncoding_body] at hok
    rcases hdl : o.download with m | u
    · rw [hdl] at hok
      simp at hok
    · rw [hdl] at hok
      rcases hpr : o.probe with m | u'
      · rw [hpr] at hok
        simp at hok
      · rw [hpr] at hok
        rcases henc : o.encode with m | u''
        · rw [henc] at hok
          simp at hok
        · exact ⟨rfl, rfl, rfl⟩

/-- Witness for `c8_workspace_teardown`: a drive download rejected with an
authorization failure leaves no workspace directory behind and is reported
as the download error. -/
theorem c8_witness :
    (handleVideoEncoding_run true
      ⟨.error "Failed to download from Google Drive: Request failed with status code 401".toList,
        .ok (), .ok (), .ok ()⟩).2 = false ∧
    (handleVideoEncoding_run true
      ⟨.error "Failed to download from Google Drive: Request failed with status code 401".toList,
        .ok (), .ok (), .ok ()⟩).1 =
      .error (.download "Failed to download from Google Drive: Request failed with status code 401".toList) :=
  ⟨(c8_workspace_teardown true _).1, (c8_workspace_teardown true _).2.1 _ rfl⟩

/-! ## Top-level handler dispatch (C10)

The serverless `handler` in `runpod/handler.js` (lines 30–56) switches on
`input.action` inside a `try`: known actions dispatch to their handlers,
an unknown action returns an object whose `error` field names the action
and lists the supported ones, and any exception thrown by an action
handler is caught and returned as an object carrying the message and the
stack.  The function therefore always returns a value and never rejects.
-/

/-- The `action` field of a handler event. -/
inductive JSAction where
  | health
  | encode
  | nvencDebug
  | other (s : List Char)
deriving DecidableEq, Repr

/-- A thrown JavaScript error, as observed by the catch block. -/
structure JSError where
  message : List Char
  stack : List Char
deriving DecidableEq, Repr

/-- The value the handler returns to the platform: either the dispatched
action result, the unknown-action error object (an `error` field only), or
the catch-block error object (`error` = message, `stack` = stack). -/
inductive HandlerOutcome (ρ : Type) where
  | value (v : ρ)
  | unknownAction (errorField : List Char)
  | caught (errorField stackField : List Char)
deriving DecidableEq, Repr

/-- The serverless `handler` of `runpod/handler.js`: `dispatch` gives the
settlement of each action handler (`.error e` models it throwing `e`). -/
def handler_run {ρ : Type} (act : JSAction)
    (dispatch : JSAction → Except JSError ρ) : HandlerOutcome ρ :=
  match act with
  | .other s =>
      .unknownAction
        ("Unknown action: ".toList ++ s ++
          ". Supported actions: health, encode, nvenc-debug".toList)
  | a =>
      match dispatch a with
      | .ok v => .value v
      | .error e => .caught e.message e.stack

/-- C10: the handler always settles with a plain value (the result type has
no rejection alternative because the whole switch runs inside the
try/catch): an unknown action yields an object whose error field names the
unsupported action and lists the supported ones; a throwing action handler
yields an object carrying the error message and stack; a succeeding action
handler's value is returned unchanged. -/
theorem c10_handler_total {ρ : Type} (act : JSAction)
    (dispatch : JSAction → Except JSError ρ) :
    (∀ s, act = .other s →
      handler_run act dispatch =
        .unknownAction
          ("Unknown action: ".toList ++ s ++
            ". Supported actions: health, encode, nvenc-debug".toList)) ∧
    ((∀ s, act ≠ .other s) → ∀ e, dispatch act = .error e →
      handler_run act dispatch = .caught e.message e.stack) ∧
    ((∀ s, act ≠ .other s) → ∀ v, dispatch act = .ok v →
      handler_run act dispatch = .value v) := by
  refine ⟨?_, ?_, ?_⟩
  · intro s hs
    subst hs
    rfl
  · intro hs e he
    cases act with
    | other t => exact absurd rfl (hs t)
    | health => simp [handler_run, he]
    | encode => simp [handler_run, he]
    | nvencDebug => simp [handler_run, he]
  · intro hs v hv
    cases act with
    | other t => exact absurd rfl (hs t)
    | health => simp [handler_run, hv]
    | encode => simp [handler_run, hv]
    | nvencDebug => simp [handler_run, hv]

/-- Witness for `c10_handler_total`: an unknown action and a throwing
encode handler. -/
theorem c10_witness :
    handler_run (ρ := Unit) (JSAction.other ("transcode".toList))
        (fun _ => .error ⟨"boom".toList, "trace".toList⟩) =
      .unknownAction
        ("Unknown action: ".toList ++ "transcode".toList ++
          ". Supported actions: health, encode, nvenc-debug".toList) ∧
    handler_run (ρ := Unit) JSAction.encode
        (fun _ => .error ⟨"boom".toList, "trace".toList⟩) =
      .caught ("boom".toList) ("trace".toList) :=
  ⟨(c10_handler_total (ρ := Unit) (JSAction.other ("transcode".toList))
      (fun _ => .error ⟨"boom".toList, "trace".toList⟩)).1 _ rfl,
    (c10_handler_total (ρ := Unit) JSAction.encode
      (fun _ => .error ⟨"boom".toList, "trace".toList⟩)).2.1
      (fun s h => by cases h) _ rfl⟩

/-! ## Capability detector (C5, C6)

`checkNVENCAvailability` in `runpod/handler.js` (lines 621–816) runs inside
a promise whose executor only ever calls `resolve` — there is no rejection
path.  Its steps:

* it spawns `nvidia-smi -L` and schedules a watchdog (line 810,
  `setTimeout(..., 5000)`) that kills the probe and resolves `false`; this
  timer is never cleared, so it fires at 5 s regardless of progress;
* on close of `nvidia-smi`: if no `GPU` line was seen or the exit code is
  nonzero, it resolves `false`; otherwise it spawns `ffmpeg -encoders`
  (this step has no timer of its own);
* on close of the encoder listing: if no NVENC encoder name occurs in the
  output it resolves `false`; otherwise it spawns the synthetic NVENC test
  encode and schedules a second watchdog (line 801,
  `setTimeout(..., 10000)`) that kills the test and resolves `false`;
* on close of the test: it resolves `true` exactly when the exit code is
  `0` and no recognized initialization-failure line was seen; otherwise
  `false`.

A promise settles at the first `resolve`; later calls are no-ops.  The
model below lists every `resolve` event with its (seconds-scale) firing
time and takes the earliest one, breaking ties in favour of the
earlier-registered event (the watchdog timer is registered in the same
executor turn, before any close event can be delivered).
-/

/-- One run of the capability detector, described by the fate of each child
process: close times are `none` when the process never closes on its own
(`smiClose` is absolute, the other two are delays from their spawn). -/
structure DetectorRun where
  smiClose : Option ℕ
  smiCode : ℤ
  sawGPU : Bool
  encClose : Option ℕ
  hasNvencEncoder : Bool
  testClose : Option ℕ
  testCode : ℤ
  testError : Bool
deriving DecidableEq, Repr

/-- All `resolve` events of one detector run, as `(time, value)` pairs in
registration order.  The 5-second watchdog is always present; the chain of
close events contributes only as far as the run actually proceeds. -/
def checkNVENCAvailability_events (r : DetectorRun) : List (ℕ × Bool) :=
  (5, false) ::
    (match r.smiClose with
      | none => []
      | some t1 =>
          if r.sawGPU && r.smiCode == 0 then
            match r.encClose with
            | none => []
            | some d2 =>
                if r.hasNvencEncoder then
                  (t1 + d2 + 10, false) ::
                    (match r.testClose with
                      | none => []
                      | some d3 => [(t1 + d2 + d3, r.testCode == 0 && !r.testError)])
                else [(t1 + d2, false)]
          else [(t1, false)])

/-- The settlement of the detector promise: the earliest event wins, with
ties broken towards the earlier-registered event. -/
def checkNVENCAvailability_settle (r : DetectorRun) : ℕ × Bool :=
  (checkNVENCAvailability_events r).foldl
    (fun best e => if e.1 < best.1 then e else best) (5, false)

/-- The fold keeping the earliest event never moves later than its start. -/
theorem settle_foldl_time_le (l : List (ℕ × Bool)) (init : ℕ × Bool) :
    (l.foldl (fun best e => if e.1 < best.1 then e else best) init).1 ≤ init.1 := by
  induction l generalizing init with
  | nil => exact Nat.le_refl _
  | cons e t ih =>
      simp only [List.foldl_cons]
      by_cases h : e.1 < init.1
      · simpa [h] using (ih e).trans (Nat.le_of_lt h)
      · simpa [h] using ih init

/-- If every event is no earlier than the start, the fold keeps the start. -/
theorem settle_foldl_of_all_ge (l : List (ℕ × Bool)) (init : ℕ × Bool)
    (h : ∀ e ∈ l, init.1 ≤ e.1) :
    l.foldl (fun best e => if e.1 < best.1 then e else best) init = init := by
  induction l with
  | nil => rfl
  | cons e t ih =>
      have he : ¬ e.1 < init.1 := Nat.not_lt.mpr (h e (by simp))
      simp only [List.foldl_cons, if_neg he]
      exact ih (fun x hx => h x (by simp [hx]))

/-- If the start and every event carry value `false`, so does the fold. -/
theorem settle_foldl_of_all_false (l : List (ℕ × Bool)) (init : ℕ × Bool)
    (hi : init.2 = false) (h : ∀ e ∈ l, e.2 = false) :
    (l.foldl (fun best e => if e.1 < best.1 then e else best) init).2 = false := by
  induction l generalizing init with
  | nil => exact hi
  | cons e t ih =>
      simp only [List.foldl_cons]
      by_cases hc : e.1 < init.1
      · simp only [if_pos hc]
        exact ih e (h e (by simp)) (fun x hx => h x (by simp [hx]))
      · simp only [if_neg hc]
        exact ih init hi (fun x hx => h x (by simp [hx]))

/-- A detection-step failure: the device query never closes within its 5 s
window, errors, or reports no GPU; the encoder listing lacks every NVENC
encoder; or the synthetic encode never closes, exits nonzero, or reports a
recognized initialization failure. -/
def detectionStepFailed (r : DetectorRun) : Prop :=
  (∀ t, r.smiClose = some t → 5 ≤ t) ∨ r.smiCode ≠ 0 ∨ r.sawGPU = false ∨
    r.hasNvencEncoder = false ∨ r.testClose = none ∨ r.testCode ≠ 0 ∨ r.testError = true

/-- C5: whatever detection step fails, and however the run is timed, the
detector settles to the software path (`false`); it has no rejection path
at all, so no capability failure can surface as a job error. -/
theorem c5_detection_never_fails (r : DetectorRun) (h : detectionStepFailed r) :
    (checkNVENCAvailability_settle r).2 = false := by
  unfold checkNVENCAvailability_settle
  rcases hsmi : r.smiClose with _ | t1
  · exact settle_foldl_of_all_false _ _ rfl
      (by simp [checkNVENCAvailability_events, hsmi])
  · by_cases hgpu : r.sawGPU && r.smiCode == 0
    · -- the device query succeeded: the failing step is later, or the
      -- query closed only at/after the watchdog
      rcases henc : r.encClose with _ | d2
      · exact settle_foldl_of_all_false _ _ rfl
          (by simp [checkNVENCAvailability_events, hsmi, hgpu, henc])
      · by_cases hn : r.hasNvencEncoder
        · rcases htest : r.testClose with _ | d3
          · exact settle_foldl_of_all_false _ _ rfl
              (by simp [checkNVENCAvailability_events, hsmi, hgpu, henc, hn, htest])
          · -- every step ran; the failure is the test result or pure timing
            rcases h with h5 | hc | hg | hne | htc | hcode | herr
            · -- late device close: every event fires at or after 5 s
              have ht1 : 5 ≤ t1 := h5 t1 hsmi
              rw [settle_foldl_of_all_ge]
              intro e he
              simp [checkNVENCAvailability_events, hsmi, hgpu, henc, hn,
                htest] at he
              rcases he with rfl | rfl | rfl
              · exact Nat.le_refl _
              · omega
              · omega
            · simp only [beq_iff_eq, Bool.and_eq_true] at hgpu
              exact absurd hgpu.2 hc
            · simp only [Bool.and_eq_true] at hgpu
              rw [hgpu.1] at hg
              exact absurd hg (by simp)
            · exact absurd hn (by simp [hne])
            · rw [htest] at htc
              exact absurd htc (by simp)
            · refine settle_foldl_of_all_false _ _ rfl ?_
              intro e he
              simp [checkNVENCAvailability_events, hsmi, hgpu, henc, hn,
                htest] at he
              rcases he with rfl | rfl | rfl
              · rfl
              · rfl
              · simp [hcode]
            · refine settle_foldl_of_all_false _ _ rfl ?_
              intro e he
              simp [checkNVENCAvailability_events, hsmi, hgpu, henc, hn,
                htest] at he
              rcases he with rfl | rfl | rfl
              · rfl
              · rfl
              · simp [herr]
        · exact settle_foldl_of_all_false _ _ rfl
            (by
              intro e he
              simp [checkNVENCAvailability_events, hsmi, hgpu, henc, hn] at he
              rcases he with rfl | rfl <;> rfl)
    · exact settle_foldl_of_all_false _ _ rfl
        (by
          intro e he
          simp [checkNVENCAvailability_events, hsmi, hgpu] at he
          rcases he with rfl | rfl <;> rfl)

/-- Witness for `c5_detection_never_fails`: a run whose synthetic encode
exits nonzero settles to the software path. -/
theorem c5_witness :
    (checkNVENCAvailability_settle
      ⟨some 1, 0, true, some 1, true, some 1, 1, false⟩).2 = false :=
  c5_detection_never_fails ⟨some 1, 0, true, some 1, true, some 1, 1, false⟩
    (Or.inr (Or.inr (Or.inr (Or.inr (Or.inr (Or.inl (by decide)))))))

/-- C6: (a) the detector always settles, no later than the always-armed
5-second device-check watchdog, so no probe step can make it hang
indefinitely; (b) if the device-presence check does not complete within
its 5-second timeout, the settlement is the software path; (c) if the
synthetic-encode test does not complete within its own 10-second timeout,
the settlement is the software path and happens within that bound. -/
theorem c6_detector_timeouts (r : DetectorRun) :
    (checkNVENCAvailability_settle r).1 ≤ 5 ∧
    ((∀ t, r.smiClose = some t → 5 ≤ t) →
      (checkNVENCAvailability_settle r).2 = false) ∧
    (∀ t1 d2, r.smiClose = some t1 → r.encClose = some d2 →
      (∀ d3, r.testClose = some d3 → 10 ≤ d3) →
      (checkNVENCAvailability_settle r).2 = false ∧
        (checkNVENCAvailability_settle r).1 ≤ t1 + d2 + 10) := by
  refine ⟨settle_foldl_time_le _ _, ?_, ?_⟩
  · -- (b): every event fires at or after the 5-second watchdog, whose
    -- value is the software path
    intro h5
    unfold checkNVENCAvailability_settle
    rcases hsmi : r.smiClose with _ | t1
    · exact settle_foldl_of_all_false _ _ rfl
        (by simp [checkNVENCAvailability_events, hsmi])
    · have ht1 : 5 ≤ t1 := h5 t1 hsmi
      rw [settle_foldl_of_all_ge]
      intro e he
      by_cases hgpu : r.sawGPU && r.smiCode == 0
      · rcases henc : r.encClose with _ | d2
        · simp [checkNVENCAvailability_events, hsmi, hgpu, henc] at he
          rcases he with rfl
          exact Nat.le_refl _
        · by_cases hn : r.hasNvencEncoder
          · rcases htest : r.testClose with _ | d3
            · simp [checkNVENCAvailability_events, hsmi, hgpu, henc, hn, htest] at he
              rcases he with rfl | rfl
              · exact Nat.le_refl _
              · omega
            · simp [checkNVENCAvailability_events, hsmi, hgpu, henc, hn, htest] at he
              rcases he with rfl | rfl | rfl
              · exact Nat.le_refl _
              · omega
              · omega
          · simp [checkNVENCAvailability_events, hsmi, hgpu, henc, hn] at he
            rcases he with rfl | rfl
            · exact Nat.le_refl _
            · omega
      · simp [checkNVENCAvailability_events, hsmi, hgpu] at he
        rcases he with rfl | rfl
        · exact Nat.le_refl _
        · omega
  · -- (c): with the test never closing inside its window, the only event
    -- that could carry the hardware verdict fires at or after the second
    -- watchdog, so a software-valued event settles first
    intro t1 d2 hsmi henc h10
    by_cases hgpu : r.sawGPU && r.smiCode == 0
    · by_cases hn : r.hasNvencEncoder
      · rcases htest : r.testClose with _ | d3
        · constructor
          · exact settle_foldl_of_all_false _ _ rfl
              (by simp [checkNVENCAvailability_events, hsmi, hgpu, henc, hn, htest])
          · exact (settle_foldl_time_le _ _).trans (by omega)
        · have hd3 : 10 ≤ d3 := h10 d3 htest
          constructor
          · -- the test-close event fires no earlier than the watchdog, so
            -- with ties broken towards the watchdog the fold can only
            -- return a software-valued event
            unfold checkNVENCAvailability_settle
            have hval : ∀ e ∈ checkNVENCAvailability_events r,
                e.2 = true → t1 + d2 + 10 ≤ e.1 := by
              intro e he hv
              simp [checkNVENCAvailability_events, hsmi, hgpu, henc, hn, htest] at he
              rcases he with rfl | rfl | rfl
              · exact absurd hv (by simp)
              · exact absurd hv (by simp)
              · omega
            -- among the events, one with value false and time 5 is present
            -- first; a true-valued event can replace the running best only
            -- by being strictly earlier, which `hval` rules out
            have key : ∀ (l : List (ℕ × Bool)) (init : ℕ × Bool),
                init.2 = false → init.1 ≤ t1 + d2 + 10 →
                (∀ e ∈ l, e.2 = true → t1 + d2 + 10 ≤ e.1) →
                (l.foldl (fun best e => if e.1 < best.1 then e else best) init).2 = false := by
              intro l
              induction l with
              | nil => intro init h1 _ _; exact h1
              | cons e t ih =>
                  intro init h1 h2 h3
                  simp only [List.foldl_cons]
                  by_cases hc : e.1 < init.1
                  · simp only [if_pos hc]
                    rcases he2 : e.2 with _ | _
                    · exact ih e he2 (le_of_lt (lt_of_lt_of_le hc h2))
                        (fun x hx => h3 x (by simp [hx]))
                    · exact absurd hc
                        (by have := h3 e (by simp) he2; omega)
                  · simp only [if_neg hc]
                    exact ih init h1 h2 (fun x hx => h3 x (by simp [hx]))
            exact key _ _ rfl (by omega) hval
          · exact (settle_foldl_time_le _ _).trans (by omega)
      · constructor
        · exact settle_foldl_of_all_false _ _ rfl
            (by
              intro e he
              simp [checkNVENCAvailability_events, hsmi, hgpu, henc, hn] at he
              rcases he with rfl | rfl <;> rfl)
        · exact (settle_foldl_time_le _ _).trans (by omega)
    · constructor
      · exact settle_foldl_of_all_false _ _ rfl
          (by
            intro e he
            simp [checkNVENCAvailability_events, hsmi, hgpu] at he
            rcases he with rfl | rfl <;> rfl)
      · exact (settle_foldl_time_le _ _).trans (by omega)

/-- Witness for `c6_detector_timeouts`: a run whose device query never
closes settles to the software path within the watchdog bound, and a run
whose synthetic test never closes settles to the software path as well. -/
theorem c6_witness :
    ((checkNVENCAvailability_settle ⟨none, 0, true, none, true, none, 0, false⟩).1 ≤ 5 ∧
      (checkNVENCAvailability_settle ⟨none, 0, true, none, true, none, 0, false⟩).2 = false) ∧
    ((checkNVENCAvailability_settle ⟨some 1, 0, true, some 1, true, none, 0, false⟩).2 = false ∧
      (checkNVENCAvailability_settle ⟨some 1, 0, true, some 1, true, none, 0, false⟩).1 ≤ 1 + 1 + 10) :=
  ⟨⟨(c6_detector_timeouts ⟨none, 0, true, none, true, none, 0, false⟩).1,
      (c6_detector_timeouts ⟨none, 0, true, none, true, none, 0, false⟩).2.1
        (fun _ h => nomatch h)⟩,
    (c6_detector_timeouts ⟨some 1, 0, true, some 1, true, none, 0, false⟩).2.2 1 1 rfl rfl
      (fun _ h => nomatch h)⟩

/-! ## Obfuscation renaming (C9)

`renameSegmentsWithFakeExtensions` in `runpod/encode-worker.js`
(lines 256–271) lists the `.ts` files of the segment directory and renames
each one with `fs.renameSync` to its base name (`path.parse(file).name`)
plus a decoy extension drawn from the fixed `fakeExtensions` set; the
bytes on disk are not touched, only the directory entry changes.
-/

/-- A prefix of an append that fits inside the left part is a prefix of
the left part. -/
theorem prefix_append_left_of_le {α : Type} [DecidableEq α] {p a b : List α}
    (h : p <+: a ++ b) (hlen : p.length ≤ a.length) : p <+: a := by
  have h1 : (a ++ b).take p.length = p := by
    obtain ⟨t, ht⟩ := h
    rw [← ht]
    simp [List.take_left]
  have h2 : a.take p.length = p := by
    calc a.take p.length = ((a ++ b).take a.length).take p.length := by
          rw [List.take_left]
      _ = (a ++ b).take (min p.length a.length) := by rw [List.take_take]
      _ = (a ++ b).take p.length := by rw [Nat.min_eq_left hlen]
      _ = p := h1
  refine ⟨a.drop p.length, ?_⟩
  calc p ++ a.drop p.length = a.take p.length ++ a.drop p.length := by rw [h2]
    _ = a := List.take_append_drop _ _

/-- A suffix of an append that fits inside the right part is a suffix of
the right part. -/
theorem suffix_append_right_of_le {α : Type} [DecidableEq α] {p a b : List α}
    (h : p <:+ a ++ b) (hlen : p.length ≤ b.length) : p <:+ b := by
  rw [← List.reverse_prefix] at h ⊢
  rw [List.reverse_append] at h
  exact prefix_append_left_of_le h (by simpa using hlen)

/-- The decoy extension set of `renameSegmentsWithFakeExtensions`
(`runpod/encode-worker.js` line 257). -/
def fakeExtensions : List (List Char) :=
  [".jpg".toList, ".png".toList, ".webp".toList, ".css".toList, ".js".toList,
    ".ico".toList, ".svg".toList, ".gif".toList, ".txt".toList, ".html".toList]

/-- `path.parse(name).name` for a segment file name ending in `.ts`:
everything before the final `.ts` extension. -/
def tsBaseName (name : List Char) : List Char := name.take (name.length - 3)

/-- `fs.renameSync(old, new)` on a filesystem modelled as a partial map
from names to contents: the entry moves from `old` to `new` (an existing
entry at `new` is overwritten), all other entries are untouched. -/
def renameFile {β : Type} (old new : List Char)
    (fsys : List Char → Option β) : List Char → Option β :=
  fun k => if k = new then fsys old else if k = old then none else fsys k

/-- The rename loop of `renameSegmentsWithFakeExtensions`: `files` is the
directory listing filtered to `.ts` names, `choose f` the decoy extension
drawn for `f`, and each file is renamed to its base name plus that
extension. -/
def renameSegmentsWithFakeExtensions_run {β : Type} (choose : List Char → List Char)
    (files : List (List Char)) (fsys : List Char → Option β) : List Char → Option β :=
  files.foldl (fun m f => renameFile f (tsBaseName f ++ choose f) m) fsys

/-- A name ending in `.ts` is its base name followed by `.ts`. -/
theorem ts_decomp {f : List Char} (h : ".ts".toList <:+ f) :
    f = tsBaseName f ++ ".ts".toList := by
  obtain ⟨t, ht⟩ := h
  have h3 : (".ts".toList).length = 3 := rfl
  have hlen : f.length - 3 = t.length := by
    have := congrArg List.length ht
    simp only [List.length_append, h3] at this
    omega
  have hbase : tsBaseName f = t := by
    rw [tsBaseName, hlen, ← ht, List.take_left]
  rw [hbase, ht]

/-- A base name followed by a decoy extension never ends in `.ts`. -/
theorem newName_not_ts {e : List Char} (he : e ∈ fakeExtensions) (b : List Char) :
    ¬ (".ts".toList <:+ b ++ e) := by
  intro h
  fin_cases he <;>
    exact absurd (suffix_append_right_of_le h (by decide)) (by decide)

/-- No decoy extension is a proper suffix of another. -/
theorem fakeExtensions_suffix_eq {e1 e2 : List Char} (h1 : e1 ∈ fakeExtensions)
    (h2 : e2 ∈ fakeExtensions) (h : e1 <:+ e2) : e1 = e2 := by
  fin_cases h1 <;> fin_cases h2 <;> revert h <;> decide

/-- Renaming two distinct `.ts` files can never produce the same new name:
the chosen extensions must coincide (one is a suffix of the other inside
the equal append), hence the base names, hence the original names. -/
theorem newName_inj {f g e1 e2 : List Char}
    (hf : ".ts".toList <:+ f) (hg : ".ts".toList <:+ g)
    (he1 : e1 ∈ fakeExtensions) (he2 : e2 ∈ fakeExtensions)
    (heq : tsBaseName f ++ e1 = tsBaseName g ++ e2) : f = g := by
  have s1 : e1 <:+ tsBaseName f ++ e1 := List.suffix_append _ _
  have s2 : e2 <:+ tsBaseName f ++ e1 := heq ▸ List.suffix_append _ _
  have hee : e1 = e2 := by
    rcases List.suffix_or_suffix_of_suffix s1 s2 with h | h
    · exact fakeExtensions_suffix_eq he1 he2 h
    · exact (fakeExtensions_suffix_eq he2 he1 h).symm
  subst hee
  have hb : tsBaseName f = tsBaseName g := List.append_cancel_right heq
  calc f = tsBaseName f ++ ".ts".toList := ts_decomp hf
    _ = tsBaseName g ++ ".ts".toList := by rw [hb]
    _ = g := (ts_decomp hg).symm

/-- The rename loop leaves every key untouched that is neither one of the
renamed files nor one of the new names. -/
theorem rename_foldl_preserve {β : Type} (choose : List Char → List Char)
    (files : List (List Char)) (m : List Char → Option β) (k : List Char)
    (h : ∀ g ∈ files, g ≠ k ∧ tsBaseName g ++ choose g ≠ k) :
    renameSegmentsWithFakeExtensions_run choose files m k = m k := by
  induction files generalizing m with
  | nil => rfl
  | cons g t ih =>
      have hg := h g (by simp)
      have h1 : ¬ (k = tsBaseName g ++ choose g) := fun hh => hg.2 hh.symm
      have h2 : ¬ (k = g) := fun hh => hg.1 hh.symm
      calc renameSegmentsWithFakeExtensions_run choose (g :: t) m k
          = renameSegmentsWithFakeExtensions_run choose t
              (renameFile g (tsBaseName g ++ choose g) m) k := rfl
        _ = renameFile g (tsBaseName g ++ choose g) m k :=
            ih _ (fun x hx => h x (by simp [hx]))
        _ = m k := by simp [renameFile, h1, h2]

/-- C9: obfuscation renaming changes only the file names.  For every
segment file in the (duplicate-free) `.ts` listing, after the whole rename
loop the entry under the decoy name holds exactly the bytes the original
entry held, and in particular the byte size is unchanged. -/
theorem c9_rename_preserves_bytes (choose : List Char → List Char)
    (files : List (List Char)) (fsys : List Char → Option (List ℕ))
    (hnodup : files.Nodup)
    (hts : ∀ f ∈ files, ".ts".toList <:+ f)
    (hchoose : ∀ f ∈ files, choose f ∈ fakeExtensions) :
    ∀ f ∈ files,
      renameSegmentsWithFakeExtensions_run choose files fsys
          (tsBaseName f ++ choose f) = fsys f ∧
      (renameSegmentsWithFakeExtensions_run choose files fsys
          (tsBaseName f ++ choose f)).map List.length = (fsys f).map List.length := by
  intro f hf
  obtain ⟨pre, post, rfl⟩ := List.append_of_mem hf
  have hfpre : f ∉ pre := by
    rw [List.nodup_append] at hnodup
    exact fun hc => hnodup.2.2 hc (by simp)
  have hfpost : f ∉ post := by
    rw [List.nodup_append] at hnodup
    exact (List.nodup_cons.mp hnodup.2.1).1
  have hmain : renameSegmentsWithFakeExtensions_run choose (pre ++ f :: post) fsys
      (tsBaseName f ++ choose f) = fsys f := by
    have hsplit : renameSegmentsWithFakeExtensions_run choose (pre ++ f :: post) fsys
        = renameSegmentsWithFakeExtensions_run choose post
            (renameFile f (tsBaseName f ++ choose f)
              (renameSegmentsWithFakeExtensions_run choose pre fsys)) := by
      simp [renameSegmentsWithFakeExtensions_run, List.foldl_append]
    rw [hsplit]
    rw [rename_foldl_preserve]
    · have hnew : renameFile f (tsBaseName f ++ choose f)
          (renameSegmentsWithFakeExtensions_run choose pre fsys)
          (tsBaseName f ++ choose f)
          = renameSegmentsWithFakeExtensions_run choose pre fsys f := by
        simp [renameFile]
      rw [hnew]
      rw [rename_foldl_preserve]
      intro g hgpre
      have hgm : g ∈ pre ++ f :: post := by simp [hgpre]
      refine ⟨fun hc => hfpre (hc ▸ hgpre), fun hc => ?_⟩
      exact newName_not_ts (hchoose g hgm) (tsBaseName g)
        (hc ▸ hts f (by simp))
    · intro g hgpost
      have hgm : g ∈ pre ++ f :: post := by simp [hgpost]
      constructor
      · intro hc
        exact newName_not_ts (hchoose f (by simp)) (tsBaseName f)
          (hc ▸ hts g hgm)
      · intro hc
        have : g = f := newName_inj (hts g hgm) (hts f (by simp))
          (hchoose g hgm) (hchoose f (by simp)) hc
        exact hfpost (this ▸ hgpost)
  exact ⟨hmain, by rw [hmain]⟩

/-- Witness for `c9_rename_preserves_bytes`: one segment renamed to a
`.png` decoy keeps its three bytes. -/
theorem c9_witness :
    renameSegmentsWithFakeExtensions_run (fun _ => ".png".toList)
        ["000.ts".toList]
        (fun k => if k = "000.ts".toList then some [27, 64, 0] else none)
        (tsBaseName ("000.ts".toList) ++ ".png".toList)
      = some [27, 64, 0] :=
  ((c9_rename_preserves_bytes (fun _ => ".png".toList) ["000.ts".toList]
      (fun k => if k = "000.ts".toList then some [27, 64, 0] else none)
      (by decide) (by decide) (by decide) ("000.ts".toList) (by decide)).1).trans
    (by decide)

/-! ## Playlist reconstruction (C4)

`createAndUploadM3U8ToOSS` in `runpod/handler.js` (lines 902–975):

* extracts the original per-segment durations by splitting the
  encoder-produced playlist on newlines and capturing, from every line
  starting with `#EXTINF:`, the `[0-9.]+` run that is followed by a comma
  (lines 921–930);
* sorts the uploaded segments in place by
  `parseInt(fileName.split('.')[0], 10)` — the numeric sequence embedded
  in the `%03d` base name, which survives decoy renaming (lines 934–939);
* emits the header lines, then for each sorted segment an
  `#EXTINF:<duration>,` line (duration taken index-for-index from the
  extracted list when available, else the configured default) and the
  segment URL, and finally `#EXT-X-ENDLIST` (lines 941–953).

The playlist text is modelled as its newline-split line list (the builder
inserts one `\n` after every line; durations and URLs never contain a
newline, so the split recovers exactly these lines).
-/

/-- The `#EXTINF:` line tag. -/
def extinfTag : List Char := "#EXTINF:".toList

/-- A character of the `[0-9.]` class of the duration-capturing regex. -/
def isDurChar (c : Char) : Bool := c.isDigit || c == '.'

/-- The duration captured from one playlist line, modelling
`line.startsWith('#EXTINF:')` plus the `/#EXTINF:([0-9.]+),/` match: the
maximal `[0-9.]` run right after the tag, provided it is nonempty and
directly followed by a comma. -/
def extinfDuration (l : List Char) : Option (List Char) :=
  if extinfTag <+: l then
    let rest := l.drop extinfTag.length
    let d := rest.takeWhile isDurChar
    if d.isEmpty then none
    else if [','] <+: rest.drop d.length then some d else none
  else none

/-- The duration-extraction loop (lines 921–930) over the newline-split
playlist. -/
def extractDurations (lines : List (List Char)) : List (List Char) :=
  lines.filterMap extinfDuration

/-- One uploaded segment as consumed by the playlist builder. -/
structure UploadedSegment where
  fileName : List Char
  url : List Char
deriving DecidableEq, Repr

/-- `parseInt(fileName.split('.')[0], 10)` for the `%03d`-numbered segment
names (whose base name starts with digits, so the parse always succeeds). -/
def seqKey (name : List Char) : ℕ :=
  natOfDigits ((name.takeWhile (fun c => !(c == '.'))).takeWhile Char.isDigit)

/-- The in-place sort of the uploaded segments by embedded sequence number
(lines 934–939). -/
def sortSegments (segs : List UploadedSegment) : List UploadedSegment :=
  segs.mergeSort (fun a b => decide (seqKey a.fileName ≤ seqKey b.fileName))

/-- `ds[index]` when in range, else the `${segmentDuration}.000000` default
(line 946–948). -/
def durAt (ds : List (List Char)) (dflt : List Char) (i : ℕ) : List Char :=
  ds.getD i dflt

/-- The per-segment lines appended by the `forEach` (lines 945–951),
starting at index `i`: an `#EXTINF:<duration>,` line, then the URL. -/
def playlistBodyLines (ds : List (List Char)) (dflt : List Char) :
    List UploadedSegment → ℕ → List (List Char)
  | [], _ => []
  | s :: rest, i =>
      (extinfTag ++ (durAt ds dflt i ++ [','])) :: s.url ::
        playlistBodyLines ds dflt rest (i + 1)

/-- The reconstructed playlist of `createAndUploadM3U8ToOSS`, as its
newline-split line list: the fixed header, the target-duration header
(`tdStr` is the decimal string of the extracted target duration), the
media-sequence header, the sorted segment entries, and the end marker. -/
def createAndUploadM3U8_lines (segs : List UploadedSegment)
    (ds : List (List Char)) (dflt tdStr : List Char) : List (List Char) :=
  "#EXTM3U".toList ::
    "#EXT-X-VERSION:3".toList ::
    ("#EXT-X-TARGETDURATION:".toList ++ tdStr) ::
    "#EXT-X-MEDIA-SEQUENCE:0".toList ::
    (playlistBodyLines ds dflt (sortSegments segs) 0 ++ ["#EXT-X-ENDLIST".toList])

/-- `takeWhile` passes over a block all of whose elements satisfy the
predicate. -/
theorem takeWhile_append_of_all {p : Char → Bool} :
    ∀ {l l' : List Char}, (∀ c ∈ l, p c = true) →
      (l ++ l').takeWhile p = l ++ l'.takeWhile p := by
  intro l l' h
  induction l with
  | nil => simp
  | cons a t ih =>
      have ha : p a = true := h a (by simp)
      simp [List.takeWhile_cons, ha, ih (fun c hc => h c (by simp [hc]))]

/-- A well-formed `#EXTINF` entry line yields back exactly its duration. -/
theorem extinfDuration_entry {d : List Char} (hne : d ≠ [])
    (hall : ∀ c ∈ d, isDurChar c = true) :
    extinfDuration (extinfTag ++ (d ++ [','])) = some d := by
  have hpre : extinfTag <+: extinfTag ++ (d ++ [',']) := List.prefix_append _ _
  have hdrop : (extinfTag ++ (d ++ [','])).drop extinfTag.length = d ++ [','] :=
    List.drop_left _ _
  have htake : (d ++ [',']).takeWhile isDurChar = d := by
    rw [takeWhile_append_of_all hall]
    simp [List.takeWhile_cons, isDurChar]
  have hdrop2 : (d ++ [',']).drop d.length = [','] := List.drop_left _ _
  simp only [extinfDuration, if_pos hpre, hdrop, htake, hdrop2]
  simp [hne]

/-- The target-duration header line is never an `#EXTINF` line, whatever
digit string it carries. -/
theorem extinfDuration_targetduration (td : List Char) :
    extinfDuration ("#EXT-X-TARGETDURATION:".toList ++ td) = none := by
  have hnp : ¬ (extinfTag <+: "#EXT-X-TARGETDURATION:".toList ++ td) := by
    intro h
    exact absurd (prefix_append_left_of_le h (by decide)) (by decide)
  simp only [extinfDuration]
  rw [if_neg hnp]

/-- Extraction over the segment entry lines recovers the duration list
slice, index for index. -/
theorem extract_body (ds : List (List Char)) (dflt : List Char)
    (hds : ∀ d ∈ ds, d ≠ [] ∧ ∀ c ∈ d, isDurChar c = true) :
    ∀ (segs : List UploadedSegment) (i : ℕ),
      (∀ s ∈ segs, extinfDuration s.url = none) →
      i + segs.length ≤ ds.length →
      extractDurations (playlistBodyLines ds dflt segs i) =
        (ds.drop i).take segs.length := by
  intro segs
  induction segs with
  | nil => intro i _ _; simp [playlistBodyLines, extractDurations]
  | cons s rest ih =>
      intro i hurl hlen
      have hi : i < ds.length := by
        simp only [List.length_cons] at hlen
        omega
      have hgd : durAt ds dflt i = ds[i] := List.getD_eq_getElem ds dflt hi
      have hd := hds ds[i] (List.getElem_mem hi)
      have hsurl : extinfDuration s.url = none := hurl s (by simp)
      simp only [playlistBodyLines, extractDurations, List.filterMap_cons, hgd,
        extinfDuration_entry hd.1 hd.2, hsurl]
      have ihr := ih (i + 1) (fun x hx => hurl x (by simp [hx]))
        (by simp only [List.length_cons] at hlen; omega)
      simp only [extractDurations] at ihr
      rw [ihr, List.drop_eq_getElem_cons hi, List.length_cons, List.take_succ_cons]

/-- Two lists with the same elements, both strictly sorted by a numeric
key, are equal. -/
theorem eq_of_perm_of_pairwise_lt {α : Type} (key : α → ℕ) {l1 l2 : List α}
    (hp : l1.Perm l2)
    (h1 : l1.Pairwise (fun a b => key a < key b))
    (h2 : l2.Pairwise (fun a b => key a < key b)) : l1 = l2 := by
  haveI : IsAntisymm α (fun a b => key a < key b) :=
    ⟨fun a b hab hba => absurd (Nat.lt_trans hab hba) (Nat.lt_irrefl _)⟩
  exact List.eq_of_perm_of_sorted hp h1 h2

/-- Sorting any upload-order permutation of a sequence-sorted segment list
recovers that list. -/
theorem sortSegments_eq {canon published : List UploadedSegment}
    (hperm : published.Perm canon)
    (hsorted : canon.Pairwise (fun a b => seqKey a.fileName < seqKey b.fileName)) :
    sortSegments published = canon := by
  have hperm2 : (sortSegments published).Perm canon :=
    (List.mergeSort_perm published _).trans hperm
  have hs : (published.mergeSort
        (fun a b => decide (seqKey a.fileName ≤ seqKey b.fileName))).Pairwise
      (fun a b => decide (seqKey a.fileName ≤ seqKey b.fileName) = true) :=
    List.sorted_mergeSort
      (fun a b c hab hbc => by
        simp only [decide_eq_true_eq] at hab hbc ⊢
        omega)
      (fun a b => by
        simp only [Bool.or_eq_true, decide_eq_true_eq]
        omega)
      published
  have hne : canon.Pairwise (fun a b => seqKey a.fileName ≠ seqKey b.fileName) :=
    hsorted.imp (fun h => Nat.ne_of_lt h)
  have hne2 : (sortSegments published).Pairwise
      (fun a b => seqKey a.fileName ≠ seqKey b.fileName) :=
    (hperm2.pairwise_iff (fun h => h.symm)).mpr hne
  have hlt : (sortSegments published).Pairwise
      (fun a b => seqKey a.fileName < seqKey b.fileName) :=
    (hs.and hne2).imp (fun h =>
      Nat.lt_of_le_of_ne (of_decide_eq_true h.1) h.2)
  exact eq_of_perm_of_pairwise_lt (fun s => seqKey s.fileName) hperm2 hlt hsorted

/-- C4: round-trip of the playlist timing.  Given the original playlist's
duration entries `ds` (each a nonempty `[0-9.]` capture, exactly what the
extraction loop produces), a sequence-sorted segment list `canon`, and the
same segments `published` in arbitrary upload-completion order, the
reconstructed playlist orders the segments by embedded sequence number
(not upload order) and its `#EXTINF` entries are exactly `ds`: same count,
same values, same order. -/
theorem c4_playlist_roundtrip (ds : List (List Char)) (dflt tdStr : List Char)
    (canon published : List UploadedSegment)
    (hds : ∀ d ∈ ds, d ≠ [] ∧ ∀ c ∈ d, isDurChar c = true)
    (hperm : published.Perm canon)
    (hsorted : canon.Pairwise (fun a b => seqKey a.fileName < seqKey b.fileName))
    (hlen : published.length = ds.length)
    (hurl : ∀ s ∈ canon, ¬ (extinfTag <+: s.url)) :
    sortSegments published = canon ∧
    extractDurations (createAndUploadM3U8_lines published ds dflt tdStr) = ds := by
  have hcanon := sortSegments_eq hperm hsorted
  refine ⟨hcanon, ?_⟩
  have hlen2 : canon.length = ds.length := (hperm.length_eq.symm).trans hlen
  have hurl2 : ∀ s ∈ canon, extinfDuration s.url = none := by
    intro s hs
    simp [extinfDuration, hurl s hs]
  have hbody := extract_body ds dflt hds canon 0 hurl2 (by omega)
  simp only [extractDurations] at hbody
  have h1 : extinfDuration ("#EXTM3U".toList) = none := by decide
  have h2 : extinfDuration ("#EXT-X-VERSION:3".toList) = none := by decide
  have h3 := extinfDuration_targetduration tdStr
  have h4 : extinfDuration ("#EXT-X-MEDIA-SEQUENCE:0".toList) = none := by decide
  have h5 : extinfDuration ("#EXT-X-ENDLIST".toList) = none := by decide
  simp only [createAndUploadM3U8_lines, hcanon, extractDurations,
    List.filterMap_cons, List.filterMap_append, h1, h2, h3, h4, h5,
    List.filterMap_nil, List.append_nil, hbody, List.drop_zero, hlen2,
    List.take_length]

/-- Witness for `c4_playlist_roundtrip`: two decoy-renamed segments
uploaded in reversed order still reconstruct the original two-entry
duration list in order. -/
theorem c4_witness :
    sortSegments
        [⟨"001.css".toList, "https://cdn.example/seg1".toList⟩,
          ⟨"000.png".toList, "https://cdn.example/seg0".toList⟩] =
      [⟨"000.png".toList, "https://cdn.example/seg0".toList⟩,
        ⟨"001.css".toList, "https://cdn.example/seg1".toList⟩] ∧
    extractDurations
        (createAndUploadM3U8_lines
          [⟨"001.css".toList, "https://cdn.example/seg1".toList⟩,
            ⟨"000.png".toList, "https://cdn.example/seg0".toList⟩]
          ["2.000000".toList, "1.966667".toList]
          "2.000000".toList "2".toList) =
      ["2.000000".toList, "1.966667".toList] :=
  c4_playlist_roundtrip
    ["2.000000".toList, "1.966667".toList]
    ("2.000000".toList) ("2".toList)
    [⟨"000.png".toList, "https://cdn.example/seg0".toList⟩,
      ⟨"001.css".toList, "https://cdn.example/seg1".toList⟩]
    [⟨"001.css".toList, "https://cdn.example/seg1".toList⟩,
      ⟨"000.png".toList, "https://cdn.example/seg0".toList⟩]
    (by decide)
    (List.Perm.swap _ _ _)
    (by decide)
    (by decide)
    (by decide)
